import Mathlib

/-!
# bgpLogger: range derivation, batching buffer and pagination

A shallow embedding of the parts of `daemon/main.go` and `server/main.go`
that carry logic:

* `getRangeStart`, `getRangeEnd`, `FormatEsDocument` and the event
  transformation of `newGobgpMonitor` (daemon);
* `insertToElasticsearch`: the shared queue, the timer and the
  `timerCancel` channel, as a step function over the calls in flight (daemon);
* the `page` handling of the two handlers of `newRouter` (server).

Bytes are natural numbers below 256, a Go `[]byte` (`net.IP`, `net.IPMask`)
is a `List Nat` and the nil slice is `[]`. A Go run-time panic is `none`.
The functions of Go's `net` and `strconv` packages that the code calls are
modelled after the Go standard library and named after it.
-/

namespace BgpLogger

/-! ## Go's `net` package: addresses and masks -/

/-- Go's `net.IP`: a byte slice, of length 4 or 16 when well formed. -/
abbrev IP := List Nat

/-- Go's `net.IPMask`. -/
abbrev IPMask := List Nat

/-- Go's `net.IPNet`. -/
structure IPNet where
  IP : IP
  Mask : IPMask
deriving DecidableEq, Repr

/-- Go's `net.IPv4len`. -/
def IPv4len : Nat := 4

/-- Go's `net.IPv6len`. -/
def IPv6len : Nat := 16

/-- Go's `^b` on a `byte`. -/
def bnot8 (b : Nat) : Nat := (b ^^^ 255) % 256

/-- Go's `v4InV6Prefix`: the twelve bytes `0,..,0,0xff,0xff`. -/
def v4InV6Prefix : List Nat := [0, 0, 0, 0, 0, 0, 0, 0, 0, 0, 255, 255]

/-- Go's `net.IPv4(a, b, c, d)`: the 16-byte IPv4-mapped form. -/
def IPv4 (a b c d : Nat) : IP := v4InV6Prefix ++ [a, b, c, d]

/-- Go's `IP.To16`: a 4-byte address is mapped, a 16-byte one is returned as
it is, anything else is nil. -/
def To16 (ip : IP) : IP :=
  match ip with
  | [a, b, c, d] => IPv4 a b c d
  | _ => if ip.length = IPv6len then ip else []

/-- Go's `IP.To4`: a 4-byte address as it is, the last four bytes of an
IPv4-mapped 16-byte address, nil otherwise. -/
def To4 (ip : IP) : IP :=
  if ip.length = IPv4len then ip
  else if ip.length = IPv6len ∧ (ip.take 10).all (fun b => b == 0) = true
      ∧ ip[10]? = some 255 ∧ ip[11]? = some 255 then ip.drop 12
  else []

/-- The loop of Go's `net.CIDRMask`: `l` bytes to go, `n` one-bits to go. -/
def cidrMaskLoop : Nat → Nat → List Nat
  | 0, _ => []
  | l + 1, n =>
    if n ≥ 8 then 255 :: cidrMaskLoop l (n - 8)
    else bnot8 (255 >>> n) :: cidrMaskLoop l 0

/-- Go's `net.CIDRMask(ones, bits)`: nil unless `bits` is 32 or 128 and
`ones ≤ bits`. -/
def CIDRMask (ones bits : Nat) : IPMask :=
  if bits ≠ 8 * IPv4len ∧ bits ≠ 8 * IPv6len then []
  else if ones > bits then []
  else cidrMaskLoop (bits / 8) ones

/-- Go's `allFF`. -/
def allFF (b : List Nat) : Bool := b.all (fun c => c == 255)

/-- Go's `IP.Mask`: a 16-byte all-ones-prefixed mask is cut to 4 bytes for a
4-byte address, an IPv4-mapped address is cut to 4 bytes for a 4-byte mask,
and the result is nil when the lengths still differ. -/
def IP.Mask (ip : IP) (mask : IPMask) : IP :=
  let mask :=
    if mask.length = IPv6len ∧ ip.length = IPv4len ∧ allFF (mask.take 12) then mask.drop 12
    else mask
  let ip :=
    if mask.length = IPv4len ∧ ip.length = IPv6len ∧ ip.take 12 = v4InV6Prefix then ip.drop 12
    else ip
  if ip.length ≠ mask.length then []
  else List.zipWith (fun a m => a &&& m) ip mask

/-! ## `getRangeStart` and `getRangeEnd` (daemon/main.go) -/

/-- The function `getRangeStart`: `ipnet.IP.Mask(ipnet.Mask)`. -/
def getRangeStart (ipnet : IPNet) : IP :=
  IP.Mask ipnet.IP ipnet.Mask

/-- The body of the `for i, ipbyte := range ip` loop of `getRangeEnd`, from
index `i` on; `p` is the 16-byte result being filled. An index outside the
mask is a run-time panic. -/
def getRangeEndLoop (mask : IPMask) : Nat → List Nat → List Nat → Option (List Nat)
  | _, [], p => some p
  | i, ipbyte :: rest, p =>
    if mask.length = IPv4len then
      if i ≤ 12 then
        getRangeEndLoop mask (i + 1) rest (p.set i ipbyte)
      else
        match mask[i - 12]? with
        | none => none
        | some m => getRangeEndLoop mask (i + 1) rest (p.set i (ipbyte ||| bnot8 m))
    else
      match mask[i]? with
      | none => none
      | some m => getRangeEndLoop mask (i + 1) rest (p.set i (ipbyte ||| bnot8 m))

/-- The function `getRangeEnd`. -/
def getRangeEnd (ipnet : IPNet) : Option IP :=
  getRangeEndLoop ipnet.Mask 0 (To16 ipnet.IP) (List.replicate IPv6len 0)

/-- The reference last address of a prefix: each address byte OR the
complement of the mask byte, over the family's width. -/
def lastAddress (addr : List Nat) (mask : IPMask) : List Nat :=
  List.zipWith (fun a m => a ||| bnot8 m) addr mask

/-- A byte string read as an unsigned big-endian integer. -/
def beValue (bs : List Nat) : Nat :=
  bs.foldl (fun acc b => acc * 256 + b) 0

/-! ## Go's `net` package: text forms -/

/-- Go's `hexString`: two lower-case hexadecimal digits per byte. -/
def hexString (b : List Nat) : String :=
  String.mk (b.flatMap (fun v => [Nat.digitChar (v / 16 % 16), Nat.digitChar (v % 16)]))

/-- Go's `appendHex`: a 16-bit group in lower-case hexadecimal without
leading zeros. -/
def appendHex (v : Nat) : String := String.mk (Nat.toDigits 16 v)

/-- The 16-bit groups of a byte string: `(p[i] << 8) | p[i+1]`. -/
def groups16 : List Nat → List Nat
  | hi :: lo :: rest => (hi * 256 + lo) :: groups16 rest
  | _ => []

/-- The number of zero groups a list starts with. -/
def zeroRun : List Nat → Nat
  | 0 :: rest => zeroRun rest + 1
  | _ => 0

/-- The search for the longest run of zero groups in Go's IPv6 text form:
`best` is the `(start, length)` found so far, a later run replaces it only
when strictly longer. -/
def longestZeroRun : Nat → List Nat → Nat × Nat → Nat × Nat
  | _, [], best => best
  | i, g :: rest, best =>
    let r := zeroRun (g :: rest)
    longestZeroRun (i + 1) rest (if r > best.2 then (i, r) else best)

/-- The IPv6 text form of 8 groups: the first longest run of two or more zero
groups is written `::`, the other groups are joined by `:`. -/
def ipv6String (gs : List Nat) : String :=
  let run := longestZeroRun 0 gs (0, 0)
  if run.2 ≤ 1 then String.intercalate ":" (gs.map appendHex)
  else String.intercalate ":" ((gs.take run.1).map appendHex) ++ "::"
    ++ String.intercalate ":" ((gs.drop (run.1 + run.2)).map appendHex)

/-- Go's `IP.String`: `<nil>` for the nil slice, `?` and the bytes in
hexadecimal for a length that is neither 4 nor 16, dotted decimal when
`To4` succeeds, the IPv6 text form otherwise. -/
def IP.String (ip : IP) : String :=
  if ip.length = 0 then "<nil>"
  else if ip.length ≠ IPv4len ∧ ip.length ≠ IPv6len then "?" ++ hexString ip
  else if (To4 ip).length = IPv4len then String.intercalate "." ((To4 ip).map Nat.repr)
  else ipv6String (groups16 ip)

/-- Go's `networkNumberAndMask`; `none` is the pair `nil, nil`. -/
def networkNumberAndMask (n : IPNet) : Option (IP × IPMask) :=
  let ip := if To4 n.IP = [] then n.IP else To4 n.IP
  if To4 n.IP = [] ∧ ip.length ≠ IPv6len then none
  else if n.Mask.length = IPv4len then
    if ip.length ≠ IPv4len then none else some (ip, n.Mask)
  else if n.Mask.length = IPv6len then
    if ip.length = IPv4len then some (ip, n.Mask.drop 12) else some (ip, n.Mask)
  else none

/-- The count of leading one-bits of a byte in Go's `simpleMaskLength`,
with the byte that is left after shifting them out. -/
def leadingOnes : Nat → Nat → Nat × Nat
  | 0, v => (0, v)
  | fuel + 1, v =>
    if v &&& 128 ≠ 0 then
      let r := leadingOnes fuel (v * 2 % 256)
      (r.1 + 1, r.2)
    else (0, v)

/-- Go's `simpleMaskLength`: the number of leading ones of a mask made of
ones followed by zeros, `none` (Go's `-1`) for any other mask. -/
def simpleMaskLength : IPMask → Option Nat
  | [] => some 0
  | v :: rest =>
    if v = 255 then (simpleMaskLength rest).map (fun n => n + 8)
    else
      let r := leadingOnes 8 v
      if r.2 ≠ 0 then none
      else if rest.all (fun b => b == 0) then some r.1 else none

/-- Go's `IPMask.String`. -/
def IPMask.String (m : IPMask) : String :=
  if m.length = 0 then "<nil>" else hexString m

/-- Go's `IPNet.String`. -/
def IPNet.String (n : IPNet) : String :=
  match networkNumberAndMask n with
  | none => "<nil>"
  | some (nn, m) =>
    match simpleMaskLength m with
    | none => IP.String nn ++ "/" ++ IPMask.String m
    | some l => IP.String nn ++ "/" ++ Nat.repr l

/-- Go's `dtoi`: the decimal number a string starts with, the number of
characters read, and whether at least one digit was read and the number
stayed below `0xFFFFFF`. -/
def dtoi : List Char → Nat → Nat → Nat × Nat × Bool
  | [], n, i => (n, i, i ≠ 0)
  | c :: rest, n, i =>
    if '0' ≤ c ∧ c ≤ '9' then
      let n' := n * 10 + (c.toNat - '0'.toNat)
      if n' ≥ 16777215 then (16777215, i, false) else dtoi rest n' (i + 1)
    else (n, i, i ≠ 0)

/-- The loop of Go's `parseIPv4`: octet `i` of 4, `none` for Go's nil. -/
def parseIPv4Loop : Nat → Nat → List Char → List Nat → Option (List Nat)
  | 0, _, s, p => if s.length ≠ 0 then none else some p
  | k + 1, i, s, p =>
    if s.length = 0 then none
    else if i > 0 ∧ s.head? ≠ some '.' then none
    else
      let s := if i > 0 then s.drop 1 else s
      let r := dtoi s 0 0
      if ¬ r.2.2 ∨ r.1 > 255 then none
      else if r.2.1 > 1 ∧ s.head? = some '0' then none
      else parseIPv4Loop k (i + 1) (s.drop r.2.1) (p ++ [r.1])

/-- Go's `parseIPv4`: four decimal octets separated by dots, as the 16-byte
IPv4-mapped address; nil otherwise. -/
def parseIPv4 (s : String) : IP :=
  match parseIPv4Loop 4 0 s.data [] with
  | some [a, b, c, d] => IPv4 a b c d
  | _ => []

/-- Go's `net.ParseIP`: the first `.` or `:` of the text decides between the
IPv4 and the IPv6 parser, a text with neither is nil. The IPv6 text parser is
a parameter. -/
def ParseIP (parseIPv6 : String → IP) (s : String) : IP :=
  match s.data.find? (fun c => c == '.' || c == ':') with
  | some '.' => parseIPv4 s
  | some _ => parseIPv6 s
  | none => []

/-! ## Event transformation (daemon/main.go, `newGobgpMonitor`) -/

/-- The constant `AS_PATH` of the `pathattrLabel` table. -/
def AS_PATH : Nat := 2

/-- The document type `typeAdd`. -/
def typeAdd : String := "add"

/-- The document type `typeDel`. -/
def typeDel : String := "del"

/-- The struct `EsDocument` of the daemon; the time stamp is an abstract
instant and the field `Type` is written `Type_`. -/
structure EsDocument where
  Timestamp : Nat
  Prefix : IPNet
  PrefixStr : String
  RangeStart : String
  RangeEnd : String
  ASPath : List Nat
  Type_ : String
deriving DecidableEq, Repr

/-- The function `FormatEsDocument`; `none` when `getRangeEnd` panics. The
`Prefix` field of the result is the zero `net.IPNet`. -/
def FormatEsDocument (ed : EsDocument) : Option EsDocument :=
  match getRangeEnd ed.Prefix with
  | none => none
  | some e =>
    some {
      Timestamp := ed.Timestamp
      Prefix := ⟨[], []⟩
      PrefixStr := IPNet.String ed.Prefix
      RangeStart := IP.String (getRangeStart ed.Prefix)
      RangeEnd := IP.String e
      ASPath := ed.ASPath
      Type_ := ed.Type_ }

/-- The message `api.IPAddressPrefix` of the routing daemon's API. -/
structure IPAddressPrefix where
  PrefixLen : Nat
  Prefix : String
deriving DecidableEq, Repr

/-- The message `api.AsSegment`; its field `Type` is written `Type_`. -/
structure AsSegment where
  Type_ : Nat
  Numbers : List Nat
deriving DecidableEq, Repr

/-- A protobuf `Any` by what it unmarshals to: `ptypes.UnmarshalAny` into an
`api.IPAddressPrefix` succeeds on the first form only, into an
`api.AsPathAttribute` on the second only. -/
inductive AnyMsg where
  | ipAddressPrefix (p : IPAddressPrefix)
  | asPathAttribute (segments : List AsSegment)
  | other
deriving DecidableEq, Repr

/-- The enumeration `api.Family_Afi`. -/
inductive Afi where
  | AFI_UNKNOWN
  | AFI_IP
  | AFI_IP6
  | AFI_L2VPN
  | AFI_LS
  | AFI_OPAQUE
deriving DecidableEq, Repr

/-- The message `api.Path` as far as the monitor reads it; `none` is a nil
pointer or a nil slice. -/
structure Path where
  Nlri : Option AnyMsg
  Pattrs : Option (List AnyMsg)
  IsWithdraw : Bool
  Family : Option Afi
deriving DecidableEq, Repr

/-- The message `api.MonitorTableResponse`. -/
structure MonitorTableResponse where
  Path : Option Path
deriving DecidableEq, Repr

/-- What one pass of the monitor's loop does with a received event. -/
inductive Outcome where
  | skipped
  | panicked
  | document (d : EsDocument)
deriving DecidableEq, Repr

/-- The `switch res.Path.Family.Afi` of the monitor: the prefix for the two
supported families, `none` for the `default: continue`. -/
def prefixOf (parseIPv6 : String → IP) (afi : Afi) (p : IPAddressPrefix) : Option IPNet :=
  match afi with
  | .AFI_IP => some ⟨ParseIP parseIPv6 p.Prefix, CIDRMask p.PrefixLen 32⟩
  | .AFI_IP6 => some ⟨ParseIP parseIPv6 p.Prefix, CIDRMask p.PrefixLen 128⟩
  | _ => none

/-- The inner loop over `pattr.Segments`: a segment whose type is `AS_PATH`
sets the AS path. -/
def asPathOfSegments (segments : List AsSegment) (asPath : List Nat) : List Nat :=
  segments.foldl (fun acc seg => if seg.Type_ = AS_PATH then seg.Numbers else acc) asPath

/-- The loop over `res.Path.Pattrs`: attributes that do not unmarshal to an
`api.AsPathAttribute` are passed over. -/
def asPathOf (pattrs : List AnyMsg) : List Nat :=
  pattrs.foldl
    (fun acc pattr =>
      match pattr with
      | .asPathAttribute segments => asPathOfSegments segments acc
      | _ => acc)
    []

/-- One pass of the `for` loop of `newGobgpMonitor` from a received event to
the formatted document handed to `insertToElasticsearch`; `now` is the
reading of `time.Now()`. -/
def transform (parseIPv6 : String → IP) (now : Nat) (res : MonitorTableResponse) : Outcome :=
  match res.Path with
  | none => .skipped
  | some path =>
    match path.Nlri, path.Pattrs with
    | some nlri, some pattrs =>
      match nlri with
      | .ipAddressPrefix p =>
        match path.Family with
        | none => .panicked
        | some afi =>
          match prefixOf parseIPv6 afi p with
          | none => .skipped
          | some ipnet =>
            let esDocument : EsDocument := {
              Timestamp := now
              Prefix := ipnet
              PrefixStr := ""
              RangeStart := ""
              RangeEnd := ""
              ASPath := asPathOf pattrs
              Type_ := if path.IsWithdraw then typeDel else typeAdd }
            match FormatEsDocument esDocument with
            | none => .panicked
            | some fDocument => .document fDocument
      | _ => .skipped
    | _, _ => .skipped

/-! ## The batching buffer (daemon/main.go, `insertToElasticsearch`)

The shared state is the global `queue`, guarded by `queueLock`, and the
unbuffered channel `timerCancel`. A call of `insertToElasticsearch` is a
goroutine that goes through the function in steps; the steps of all calls
in flight interleave. Each event below is one such step: everything a call
does between two points where another call can run and matter. -/

/-- The variable `bulkSize`. -/
def bulkSize : Nat := 50

/-- The three branches of `insertToElasticsearch` after the append. -/
inductive Branch where
  | sizeFlush
  | timerWait
  | noFlush
deriving DecidableEq, Repr

/-- The branch taken for the length of `queue` after the append:
`if len(queue) > bulkSize*2 ... else if len(queue) == 2 ... else ...`. -/
def branchOf (len : Nat) : Branch :=
  if len > bulkSize * 2 then .sizeFlush
  else if len = 2 then .timerWait
  else .noFlush

/-- The state of the buffer and of the calls in flight.
* `queue`: the global `queue`;
* `sending`: a call holds `queueLock` and is blocked in
  `timerCancel <- struct{}{}` (the only place where the lock is held across
  a blocking operation; all other critical sections are single steps);
* `waiting`: the number of calls in the `select`, their timer running;
* `expired`: the number of calls whose `select` took `<-timer.C` and that
  have not yet re-acquired `queueLock`;
* `written`: the buffers handed to `bulkInsertToElasticsearch`, in the order
  in which they were detached from `queue`. -/
structure BufferState where
  queue : List String
  sending : Bool
  waiting : Nat
  expired : Nat
  written : List (List String)
deriving DecidableEq, Repr

/-- The state at start-up: `queue = []string{}` and no call in flight. -/
def BufferState.init : BufferState := ⟨[], false, 0, 0, []⟩

/-- The steps of the calls in flight.
* `enqueue action body`: a new call takes `queueLock`, appends its two
  strings and branches on the length;
* `cancel`: the signal of the call blocked in `timerCancel <- struct{}{}` is
  received by a call in the `select`, which returns nil; the sender copies
  the queue, resets it, unlocks and writes;
* `timerFire`: the `select` of a waiting call takes `<-timer.C`;
* `timerFlush`: a call whose timer has fired takes `queueLock`, copies the
  queue, resets it, unlocks and writes. -/
inductive Event where
  | enqueue (action body : String)
  | cancel
  | timerFire
  | timerFlush
deriving DecidableEq, Repr

/-- One step; `none` when the step cannot be taken in the state: the lock is
held by the blocked sender, no call is there to receive the signal, or no
call is at the point of the step. -/
def step (s : BufferState) : Event → Option BufferState
  | .enqueue action body =>
    if s.sending then none
    else
      let queue := s.queue ++ [action, body]
      match branchOf queue.length with
      | .sizeFlush => some { s with queue := queue, sending := true }
      | .timerWait => some { s with queue := queue, waiting := s.waiting + 1 }
      | .noFlush => some { s with queue := queue }
  | .cancel =>
    if s.sending ∧ s.waiting > 0 then
      some { s with
        queue := [], sending := false, waiting := s.waiting - 1,
        written := s.written ++ [s.queue] }
    else none
  | .timerFire =>
    if s.waiting > 0 then
      some { s with waiting := s.waiting - 1, expired := s.expired + 1 }
    else none
  | .timerFlush =>
    if s.expired > 0 ∧ ¬ s.sending then
      some { s with queue := [], expired := s.expired - 1, written := s.written ++ [s.queue] }
    else none

/-- A sequence of steps, `none` as soon as one of them cannot be taken. -/
def run (s : BufferState) : List Event → Option BufferState
  | [] => some s
  | e :: es =>
    match step s e with
    | none => none
    | some s' => run s' es

/-- The strings an event appends to the queue. -/
def Event.enqueued : Event → List String
  | .enqueue action body => [action, body]
  | _ => []

/-- One call of `insertToElasticsearch` run from entry to return with no
other call taking a step in between, as the single ingestion loop of
`newGobgpMonitor` makes them: after the append, the size branch returns
only if its signal is received; the `len(queue) == 2` branch waits in the
`select`, where only the timer can fire, then flushes; the last branch
returns at once. `none`: the call never returns. -/
def insertToElasticsearch (s : BufferState) (action body : String) : Option BufferState :=
  match branchOf (s.queue.length + 2) with
  | .sizeFlush => run s [.enqueue action body, .cancel]
  | .timerWait => run s [.enqueue action body, .timerFire, .timerFlush]
  | .noFlush => run s [.enqueue action body]

/-- The calls of the ingestion loop one after the other, with the branch
each of them took. -/
def ingest (s : BufferState) : List (String × String) → Option (BufferState × List Branch)
  | [] => some (s, [])
  | d :: ds =>
    match insertToElasticsearch s d.1 d.2 with
    | none => none
    | some s' =>
      match ingest s' ds with
      | none => none
      | some (s'', bs) => some (s'', branchOf (s.queue.length + 2) :: bs)

/-- What is flushed and what is queued, in order. -/
def BufferState.contents (s : BufferState) : List String :=
  s.written.flatten ++ s.queue

/-- The invariant of the reachable states: at most one call is in the
`select` or past it; while there is one, or while a sender is blocked, the
queue holds at least one pair; and every buffer written holds at least one
pair. -/
def BufferState.Inv (s : BufferState) : Prop :=
  s.waiting + s.expired ≤ 1
  ∧ (s.waiting + s.expired = 1 → 2 ≤ s.queue.length)
  ∧ (s.sending = true → 2 ≤ s.queue.length)
  ∧ ∀ buf ∈ s.written, 2 ≤ buf.length

/-! ## Pagination (server/main.go, `newRouter`) -/

/-- The variable `pageSize` of the server. -/
def pageSize : Int := 50

/-- The value of a decimal digit, `ch - '0'`. -/
def digitValue (c : Char) : Nat := c.toNat - '0'.toNat

/-- The digit loop of Go's `strconv.Atoi`: `n = n*10 + int(ch)`, a syntax
error (`none`) at a character that is not a decimal digit. -/
def atoiDigits : List Char → Nat → Option Nat
  | [], n => some n
  | c :: cs, n =>
    if '0' ≤ c ∧ c ≤ '9' then atoiDigits cs (n * 10 + digitValue c) else none

/-- Go's `strconv.Atoi` on a 64-bit platform, `none` when it returns an
error: an optional sign, then one or more decimal digits, the value within
`[-2^63, 2^63 - 1]`. -/
def Atoi (s : String) : Option Int :=
  match s.data with
  | [] => none
  | c :: cs =>
    let digits := if c = '-' ∨ c = '+' then cs else c :: cs
    if digits = [] then none
    else
      match atoiDigits digits 0 with
      | none => none
      | some un =>
        if c = '-' then
          if un > 2 ^ 63 then none else some (-(un : Int))
        else
          if un ≥ 2 ^ 63 then none else some (un : Int)

/-- A Go `int` operation result on a 64-bit platform: the value wrapped
into `[-2^63, 2^63 - 1]`. -/
def wrapInt64 (x : Int) : Int := (x + 2 ^ 63) % 2 ^ 64 - 2 ^ 63

/-- The page of a request: `strconv.Atoi` of the `page` query parameter
(the empty string when absent), 0 when it returns an error. -/
def pageOf (param : String) : Int :=
  match Atoi param with
  | none => 0
  | some page => page

/-- The `from` entry of the search request, `page * pageSize`, the same in
the `/searchByIP` and the `/all` handler. -/
def fromOffset (param : String) : Int :=
  wrapInt64 (pageOf param * pageSize)

/-- The value of a string of decimal digits. -/
def decimalValue (cs : List Char) : Nat :=
  cs.foldl (fun n c => n * 10 + digitValue c) 0

/-- A non-empty string of decimal digits. -/
def IsDecimal (cs : List Char) : Prop :=
  cs ≠ [] ∧ ∀ c ∈ cs, '0' ≤ c ∧ c ≤ '9'

/-- The text `s` is a well-formed decimal integer of value `k` that fits a
64-bit `int`: digits, `+` and digits, or `-` and digits. -/
def IsInt64Text (s : String) (k : Int) : Prop :=
  ∃ digits, IsDecimal digits ∧
    (((s.data = digits ∨ s.data = '+' :: digits)
        ∧ k = (decimalValue digits : Int) ∧ decimalValue digits < 2 ^ 63)
      ∨ (s.data = '-' :: digits
        ∧ k = -(decimalValue digits : Int) ∧ decimalValue digits ≤ 2 ^ 63))

/-! ## Facts about the range derivation -/

theorem length_cidrMaskLoop (l n : Nat) : (cidrMaskLoop l n).length = l := by
  induction l generalizing n with
  | zero => rfl
  | succ l ih =>
    unfold cidrMaskLoop
    split <;> simp [ih]

theorem length_CIDRMask_32 (n : Nat) (h : n ≤ 32) : (CIDRMask n 32).length = 4 := by
  have h' : ¬ n > 32 := by omega
  simp [CIDRMask, IPv4len, IPv6len, h', length_cidrMaskLoop]

theorem length_CIDRMask_128 (n : Nat) (h : n ≤ 128) : (CIDRMask n 128).length = 16 := by
  have h' : ¬ n > 128 := by omega
  simp [CIDRMask, IPv4len, IPv6len, h', length_cidrMaskLoop]

theorem head_CIDRMask_32 (n : Nat) (h8 : 8 ≤ n) (h : n ≤ 32) :
    ∃ t, CIDRMask n 32 = 255 :: t := by
  have h' : ¬ n > 32 := by omega
  refine ⟨cidrMaskLoop 3 (n - 8), ?_⟩
  simp [CIDRMask, IPv4len, IPv6len, h', cidrMaskLoop, h8]

theorem list_length_four {α : Type} (l : List α) (h : l.length = 4) :
    ∃ a b c d, l = [a, b, c, d] := by
  match l, h with
  | [a, b, c, d], _ => exact ⟨a, b, c, d, rfl⟩

theorem list_length_sixteen {α : Type} (l : List α) (h : l.length = 16) :
    ∃ a0 a1 a2 a3 a4 a5 a6 a7 a8 a9 a10 a11 a12 a13 a14 a15,
      l = [a0, a1, a2, a3, a4, a5, a6, a7, a8, a9, a10, a11, a12, a13, a14, a15] := by
  match l, h with
  | [a0, a1, a2, a3, a4, a5, a6, a7, a8, a9, a10, a11, a12, a13, a14, a15], _ =>
    exact ⟨a0, a1, a2, a3, a4, a5, a6, a7, a8, a9, a10, a11, a12, a13, a14, a15, rfl⟩

/-- What `getRangeEnd` computes for an IPv4-mapped address and a 4-byte
mask: byte 12 is copied, bytes 13 to 15 are OR-ed with the complemented
mask bytes 1 to 3. -/
theorem getRangeEnd_v4 (a b c d m0 m1 m2 m3 : Nat) :
    getRangeEnd ⟨IPv4 a b c d, [m0, m1, m2, m3]⟩
      = some (v4InV6Prefix ++ [a, b ||| bnot8 m1, c ||| bnot8 m2, d ||| bnot8 m3]) := rfl

/-- What `getRangeEnd` computes for a 16-byte address and a 16-byte mask. -/
theorem getRangeEnd_v6 (ip mask : List Nat) (hi : ip.length = 16) (hm : mask.length = 16) :
    getRangeEnd ⟨ip, mask⟩ = some (lastAddress ip mask) := by
  obtain ⟨a0, a1, a2, a3, a4, a5, a6, a7, a8, a9, a10, a11, a12, a13, a14, a15, rfl⟩ :=
    list_length_sixteen ip hi
  obtain ⟨m0, m1, m2, m3, m4, m5, m6, m7, m8, m9, m10, m11, m12, m13, m14, m15, rfl⟩ :=
    list_length_sixteen mask hm
  rfl

theorem getRangeStart_v4 (a b c d m0 m1 m2 m3 : Nat) :
    getRangeStart ⟨IPv4 a b c d, [m0, m1, m2, m3]⟩
      = [a &&& m0, b &&& m1, c &&& m2, d &&& m3] := by
  simp [getRangeStart, IP.Mask, IPv4, v4InV6Prefix, IPv4len, IPv6len]

theorem getRangeStart_v6 (ip mask : List Nat) (hi : ip.length = 16) (hm : mask.length = 16) :
    getRangeStart ⟨ip, mask⟩ = List.zipWith (fun a m => a &&& m) ip mask := by
  simp [getRangeStart, IP.Mask, IPv4len, IPv6len, hi, hm]

theorem beValue_foldl_mono (s e : List Nat) (h : List.Forall₂ (fun x y => x ≤ y) s e) :
    ∀ acc1 acc2 : Nat, acc1 ≤ acc2 →
      s.foldl (fun acc b => acc * 256 + b) acc1 ≤ e.foldl (fun acc b => acc * 256 + b) acc2 := by
  induction h with
  | nil => intro acc1 acc2 hacc; simpa using hacc
  | cons hxy _ ih =>
    intro acc1 acc2 hacc
    simp only [List.foldl_cons]
    apply ih
    have := Nat.mul_le_mul_right 256 hacc
    omega

theorem beValue_mono (s e : List Nat) (h : List.Forall₂ (fun x y => x ≤ y) s e) :
    beValue s ≤ beValue e :=
  beValue_foldl_mono s e h 0 0 (Nat.le_refl 0)

theorem le_or_bnot8 (a m : Nat) : a ≤ a ||| bnot8 m :=
  Nat.le_of_testBit (by intro i h; simp [h])

theorem forall₂_and_le_or (ip mask : List Nat) :
    List.Forall₂ (fun x y => x ≤ y) (List.zipWith (fun a m => a &&& m) ip mask)
      (lastAddress ip mask) := by
  induction ip generalizing mask with
  | nil => simp [lastAddress]
  | cons a ip ih =>
    cases mask with
    | nil => simp [lastAddress]
    | cons m mask =>
      simp only [lastAddress, List.zipWith_cons_cons, List.forall₂_cons]
      exact ⟨Nat.le_trans Nat.and_le_left (le_or_bnot8 a m), ih mask⟩

/-! ## The range derivation: claims -/

/-- C1, at the default route: for the IPv4 prefix `0.0.0.0/0` the code
returns the IPv4-mapped `0.255.255.255`, while the address OR the
complemented mask is `255.255.255.255`: the first octet is copied, not
OR-ed, because the copying branch runs for `i <= 12` and not for `i < 12`. -/
theorem getRangeEnd_default_route :
    ParseIP (fun _ => []) "0.0.0.0" = IPv4 0 0 0 0
    ∧ getRangeEnd ⟨IPv4 0 0 0 0, CIDRMask 0 32⟩ = some (IPv4 0 255 255 255)
    ∧ IP.String (IPv4 0 255 255 255) = "0.255.255.255"
    ∧ lastAddress [0, 0, 0, 0] (CIDRMask 0 32) = [255, 255, 255, 255]
    ∧ getRangeEnd ⟨IPv4 0 0 0 0, CIDRMask 0 32⟩
        ≠ some (v4InV6Prefix ++ lastAddress [0, 0, 0, 0] (CIDRMask 0 32)) := by
  decide

/-- C4: for an IPv4 address `a.b.c.d` with mask length `n4 ≤ 32` and for a
16-byte IPv6 address with mask length `n6 ≤ 128`, `getRangeEnd` returns an
address and `getRangeStart` is at most it as an unsigned big-endian integer
of the family's width: the 4-byte start against the last four bytes of the
16-byte end for IPv4, 16 bytes against 16 bytes for IPv6. -/
theorem rangeStart_le_rangeEnd (a b c d n4 : Nat) (ip6 : IP) (n6 : Nat)
    (hn4 : n4 ≤ 32) (hip6 : ip6.length = 16) (hn6 : n6 ≤ 128) :
    (∃ e, getRangeEnd ⟨IPv4 a b c d, CIDRMask n4 32⟩ = some e
        ∧ (getRangeStart ⟨IPv4 a b c d, CIDRMask n4 32⟩).length = 4
        ∧ e.length = 16
        ∧ beValue (getRangeStart ⟨IPv4 a b c d, CIDRMask n4 32⟩) ≤ beValue (e.drop 12))
    ∧ (∃ e, getRangeEnd ⟨ip6, CIDRMask n6 128⟩ = some e
        ∧ (getRangeStart ⟨ip6, CIDRMask n6 128⟩).length = 16
        ∧ e.length = 16
        ∧ beValue (getRangeStart ⟨ip6, CIDRMask n6 128⟩) ≤ beValue e) := by
  constructor
  · obtain ⟨m0, m1, m2, m3, hm⟩ := list_length_four _ (length_CIDRMask_32 n4 hn4)
    rw [hm, getRangeEnd_v4, getRangeStart_v4]
    refine ⟨_, rfl, rfl, rfl, ?_⟩
    apply beValue_mono
    simp only [v4InV6Prefix, List.cons_append, List.nil_append, List.drop_succ_cons,
      List.drop_zero, List.forall₂_cons, List.forall₂_nil_left_iff, and_true]
    exact ⟨Nat.and_le_left, Nat.le_trans Nat.and_le_left (le_or_bnot8 b m1),
      Nat.le_trans Nat.and_le_left (le_or_bnot8 c m2),
      Nat.le_trans Nat.and_le_left (le_or_bnot8 d m3)⟩
  · have hm := length_CIDRMask_128 n6 hn6
    rw [getRangeEnd_v6 ip6 _ hip6 hm, getRangeStart_v6 ip6 _ hip6 hm]
    refine ⟨_, rfl, ?_, ?_, ?_⟩
    · simp [hip6, hm]
    · simp [lastAddress, hip6, hm]
    · exact beValue_mono _ _ (forall₂_and_le_or ip6 _)

theorem rangeStart_le_rangeEnd_witness :
    (∃ e, getRangeEnd ⟨IPv4 10 0 0 5, CIDRMask 7 32⟩ = some e
        ∧ (getRangeStart ⟨IPv4 10 0 0 5, CIDRMask 7 32⟩).length = 4
        ∧ e.length = 16
        ∧ beValue (getRangeStart ⟨IPv4 10 0 0 5, CIDRMask 7 32⟩) ≤ beValue (e.drop 12))
    ∧ (∃ e, getRangeEnd ⟨[32, 1, 13, 184, 0, 0, 0, 0, 0, 0, 0, 0, 0, 0, 0, 1], CIDRMask 64 128⟩
          = some e
        ∧ (getRangeStart
            ⟨[32, 1, 13, 184, 0, 0, 0, 0, 0, 0, 0, 0, 0, 0, 0, 1], CIDRMask 64 128⟩).length = 16
        ∧ e.length = 16
        ∧ beValue (getRangeStart
            ⟨[32, 1, 13, 184, 0, 0, 0, 0, 0, 0, 0, 0, 0, 0, 0, 1], CIDRMask 64 128⟩)
          ≤ beValue e) :=
  rangeStart_le_rangeEnd 10 0 0 5 7 [32, 1, 13, 184, 0, 0, 0, 0, 0, 0, 0, 0, 0, 0, 0, 1] 64
    (by decide) (by decide) (by decide)

/-- C10: `getRangeEnd` is the reference last address (address OR
complemented mask) for a 16-byte IPv6 address with mask length `n6 ≤ 128`
and for an IPv4 address with mask length `8 ≤ n4 ≤ 32`; for an IPv4 address
and any 4-byte mask the result has 16 bytes, its first twelve are the
IPv4-mapped prefix and its byte 12 is the first octet of the address. -/
theorem getRangeEnd_agrees_with_lastAddress (a b c d n4 : Nat) (ip6 : IP) (n6 : Nat)
    (mask4 : IPMask) (hip6 : ip6.length = 16) (hn6 : n6 ≤ 128)
    (hn4 : 8 ≤ n4) (hn4' : n4 ≤ 32) (hmask4 : mask4.length = 4) :
    getRangeEnd ⟨ip6, CIDRMask n6 128⟩ = some (lastAddress ip6 (CIDRMask n6 128))
    ∧ getRangeEnd ⟨IPv4 a b c d, CIDRMask n4 32⟩
        = some (v4InV6Prefix ++ lastAddress [a, b, c, d] (CIDRMask n4 32))
    ∧ (∃ e, getRangeEnd ⟨IPv4 a b c d, mask4⟩ = some e ∧ e.length = 16
        ∧ e.take 12 = v4InV6Prefix ∧ e[12]? = some a) := by
  refine ⟨getRangeEnd_v6 ip6 _ hip6 (length_CIDRMask_128 n6 hn6), ?_, ?_⟩
  · obtain ⟨t, ht⟩ := head_CIDRMask_32 n4 hn4 hn4'
    obtain ⟨m0, m1, m2, m3, hm⟩ := list_length_four _ (length_CIDRMask_32 n4 hn4')
    have h0 : m0 = 255 := by
      rw [ht] at hm
      exact (List.cons.inj hm).1.symm
    subst h0
    rw [hm, getRangeEnd_v4]
    simp [lastAddress, bnot8]
  · obtain ⟨m0, m1, m2, m3, rfl⟩ := list_length_four mask4 hmask4
    exact ⟨_, getRangeEnd_v4 a b c d m0 m1 m2 m3, rfl, rfl, rfl⟩

theorem getRangeEnd_agrees_with_lastAddress_witness :
    getRangeEnd ⟨[32, 1, 13, 184, 0, 0, 0, 0, 0, 0, 0, 0, 0, 0, 0, 1], CIDRMask 64 128⟩
      = some (lastAddress [32, 1, 13, 184, 0, 0, 0, 0, 0, 0, 0, 0, 0, 0, 0, 1] (CIDRMask 64 128))
    ∧ getRangeEnd ⟨IPv4 10 0 0 5, CIDRMask 24 32⟩
        = some (v4InV6Prefix ++ lastAddress [10, 0, 0, 5] (CIDRMask 24 32))
    ∧ (∃ e, getRangeEnd ⟨IPv4 10 0 0 5, CIDRMask 0 32⟩ = some e ∧ e.length = 16
        ∧ e.take 12 = v4InV6Prefix ∧ e[12]? = some 10) :=
  getRangeEnd_agrees_with_lastAddress 10 0 0 5 24
    [32, 1, 13, 184, 0, 0, 0, 0, 0, 0, 0, 0, 0, 0, 0, 1] 64 (CIDRMask 0 32)
    (by decide) (by decide) (by decide) (by decide) (by decide)

/-! ## The event transformation: claims -/

theorem To16_nil_or_sixteen (ip : IP) : To16 ip = [] ∨ (To16 ip).length = 16 := by
  unfold To16
  split
  · right; rfl
  · split
    · right; assumption
    · left; rfl

theorem getRangeEndLoop_nil (mask : IPMask) (i : Nat) (p : List Nat) :
    getRangeEndLoop mask i [] p = some p := by
  simp [getRangeEndLoop]

/-- With a mask of 4 or of 16 bytes `getRangeEnd` does not panic. -/
theorem getRangeEnd_total (ip : IP) (mask : IPMask)
    (hm : mask.length = 4 ∨ mask.length = 16) : ∃ e, getRangeEnd ⟨ip, mask⟩ = some e := by
  unfold getRangeEnd
  rcases To16_nil_or_sixteen ip with h | h
  · simp only [h]
    exact ⟨_, getRangeEndLoop_nil _ _ _⟩
  · obtain ⟨a0, a1, a2, a3, a4, a5, a6, a7, a8, a9, a10, a11, a12, a13, a14, a15, h16⟩ :=
      list_length_sixteen _ h
    simp only [h16]
    rcases hm with hm | hm
    · obtain ⟨m0, m1, m2, m3, rfl⟩ := list_length_four mask hm
      exact ⟨_, rfl⟩
    · obtain ⟨m0, m1, m2, m3, m4, m5, m6, m7, m8, m9, m10, m11, m12, m13, m14, m15, rfl⟩ :=
        list_length_sixteen mask hm
      exact ⟨_, rfl⟩

/-- C5: (1) every document the monitor produces from an event has type
`del` when the event is a withdrawal and `add` otherwise, the rendered
`getRangeStart` and `getRangeEnd` of the event's prefix as range, the
capture time as time stamp and the extracted AS path; (2) an event with
prefix and attributes of family IP with mask length at most 32, or IP6 with
mask length at most 128, produces a document; (3) `FormatEsDocument` fills
the two range fields from `getRangeStart` and `getRangeEnd` and keeps time
stamp, AS path and type; (4) a withdrawal of the IPv4 prefix `192.0.2.0/24`
yields type `del`, range start `192.0.2.0` and range end `192.0.2.255`. -/
theorem transform_document (parseIPv6 : String → IP) (now : Nat) :
    (∀ res doc, transform parseIPv6 now res = .document doc →
      ∃ path p pattrs afi ipnet e,
        res.Path = some path ∧ path.Nlri = some (.ipAddressPrefix p)
        ∧ path.Pattrs = some pattrs ∧ path.Family = some afi
        ∧ prefixOf parseIPv6 afi p = some ipnet ∧ getRangeEnd ipnet = some e
        ∧ doc.Type_ = (if path.IsWithdraw then "del" else "add")
        ∧ doc.RangeStart = IP.String (getRangeStart ipnet)
        ∧ doc.RangeEnd = IP.String e
        ∧ doc.Timestamp = now ∧ doc.ASPath = asPathOf pattrs)
    ∧ (∀ p pattrs w afi,
        (afi = Afi.AFI_IP ∧ p.PrefixLen ≤ 32) ∨ (afi = Afi.AFI_IP6 ∧ p.PrefixLen ≤ 128) →
        ∃ doc, transform parseIPv6 now
          ⟨some ⟨some (.ipAddressPrefix p), some pattrs, w, some afi⟩⟩ = .document doc)
    ∧ (∀ ed e, getRangeEnd ed.Prefix = some e →
        ∃ fd, FormatEsDocument ed = some fd
          ∧ fd.RangeStart = IP.String (getRangeStart ed.Prefix)
          ∧ fd.RangeEnd = IP.String e
          ∧ fd.Timestamp = ed.Timestamp ∧ fd.ASPath = ed.ASPath ∧ fd.Type_ = ed.Type_)
    ∧ (∀ pattrs, ∃ doc,
        transform parseIPv6 now
          ⟨some ⟨some (.ipAddressPrefix ⟨24, "192.0.2.0"⟩), some pattrs, true, some .AFI_IP⟩⟩
          = .document doc
        ∧ doc.Type_ = "del" ∧ doc.RangeStart = "192.0.2.0" ∧ doc.RangeEnd = "192.0.2.255") := by
  refine ⟨?_, ?_, ?_, ?_⟩
  · intro res doc h
    unfold transform at h
    split at h
    · exact absurd h (by simp)
    · rename_i path hpath
      split at h
      · rename_i nlri pattrs hn hp
        split at h
        · rename_i p
          split at h
          · exact absurd h (by simp)
          · rename_i afi hafi
            split at h
            · exact absurd h (by simp)
            · rename_i ipnet hipnet
              simp only [FormatEsDocument] at h
              cases he : getRangeEnd ipnet with
              | none => simp [he] at h
              | some e =>
                simp only [he, Outcome.document.injEq] at h
                subst h
                refine ⟨path, p, pattrs, afi, ipnet, e, hpath, hn, hp, hafi, hipnet, he, ?_⟩
                simp only [typeDel, typeAdd, and_self]
        · exact absurd h (by simp)
      · exact absurd h (by simp)
  · intro p pattrs w afi hfam
    have hlen : ∃ ipnet, prefixOf parseIPv6 afi p = some ipnet ∧
        (ipnet.Mask.length = 4 ∨ ipnet.Mask.length = 16) := by
      rcases hfam with ⟨rfl, h⟩ | ⟨rfl, h⟩
      · exact ⟨_, rfl, Or.inl (length_CIDRMask_32 _ h)⟩
      · exact ⟨_, rfl, Or.inr (length_CIDRMask_128 _ h)⟩
    obtain ⟨ipnet, hipnet, hm⟩ := hlen
    obtain ⟨e, he⟩ := getRangeEnd_total ipnet.IP ipnet.Mask hm
    simp [transform, hipnet, FormatEsDocument, he]
  · intro ed e he
    simp [FormatEsDocument, he]
  · intro pattrs
    have hp : ParseIP parseIPv6 "192.0.2.0" = IPv4 192 0 2 0 := rfl
    have he : getRangeEnd ⟨IPv4 192 0 2 0, CIDRMask 24 32⟩ = some (IPv4 192 0 2 255) := by
      decide
    refine ⟨⟨now, ⟨[], []⟩, IPNet.String ⟨IPv4 192 0 2 0, CIDRMask 24 32⟩,
      IP.String (getRangeStart ⟨IPv4 192 0 2 0, CIDRMask 24 32⟩),
      IP.String (IPv4 192 0 2 255), asPathOf pattrs, typeDel⟩, ?_, ?_⟩
    · simp only [transform, prefixOf, FormatEsDocument, hp, he, if_true]
    · exact ⟨rfl, rfl, rfl⟩

theorem transform_document_witness :
    ∃ path p pattrs afi ipnet e,
      (MonitorTableResponse.mk (some ⟨some (.ipAddressPrefix ⟨24, "10.0.0.5"⟩),
          some [.other, .asPathAttribute [⟨2, [64512, 65001]⟩]], false, some .AFI_IP⟩)).Path
        = some path
      ∧ path.Nlri = some (.ipAddressPrefix p)
      ∧ path.Pattrs = some pattrs ∧ path.Family = some afi
      ∧ prefixOf (fun _ => []) afi p = some ipnet
      ∧ getRangeEnd ipnet = some e
      ∧ (EsDocument.mk 7 ⟨[], []⟩ "10.0.0.5/24" "10.0.0.0" "10.0.0.255"
          [64512, 65001] "add").Type_ = (if path.IsWithdraw then "del" else "add")
      ∧ (EsDocument.mk 7 ⟨[], []⟩ "10.0.0.5/24" "10.0.0.0" "10.0.0.255"
          [64512, 65001] "add").RangeStart = IP.String (getRangeStart ipnet)
      ∧ (EsDocument.mk 7 ⟨[], []⟩ "10.0.0.5/24" "10.0.0.0" "10.0.0.255"
          [64512, 65001] "add").RangeEnd = IP.String e
      ∧ (EsDocument.mk 7 ⟨[], []⟩ "10.0.0.5/24" "10.0.0.0" "10.0.0.255"
          [64512, 65001] "add").Timestamp = 7
      ∧ (EsDocument.mk 7 ⟨[], []⟩ "10.0.0.5/24" "10.0.0.0" "10.0.0.255"
          [64512, 65001] "add").ASPath = asPathOf pattrs :=
  (transform_document (fun _ => []) 7).1
    ⟨some ⟨some (.ipAddressPrefix ⟨24, "10.0.0.5"⟩),
      some [.other, .asPathAttribute [⟨2, [64512, 65001]⟩]], false, some .AFI_IP⟩⟩
    (EsDocument.mk 7 ⟨[], []⟩ "10.0.0.5/24" "10.0.0.0" "10.0.0.255" [64512, 65001] "add")
    (by decide)

/-! ## The batching buffer: claims -/

theorem step_contents (s s' : BufferState) (e : Event) (h : step s e = some s') :
    s'.contents = s.contents ++ e.enqueued := by
  cases e with
  | enqueue action body =>
    simp only [step] at h
    split at h
    · exact absurd h (by simp)
    · split at h <;>
        (simp only [Option.some.injEq] at h; subst h
         simp [BufferState.contents, Event.enqueued])
  | cancel =>
    simp only [step] at h
    split at h
    · simp only [Option.some.injEq] at h; subst h
      simp [BufferState.contents, Event.enqueued]
    · exact absurd h (by simp)
  | timerFire =>
    simp only [step] at h
    split at h
    · simp only [Option.some.injEq] at h; subst h
      simp [BufferState.contents, Event.enqueued]
    · exact absurd h (by simp)
  | timerFlush =>
    simp only [step] at h
    split at h
    · simp only [Option.some.injEq] at h; subst h
      simp [BufferState.contents, Event.enqueued]
    · exact absurd h (by simp)

theorem run_contents (evs : List Event) :
    ∀ s s' : BufferState, run s evs = some s' →
      s'.contents = s.contents ++ evs.flatMap Event.enqueued := by
  induction evs with
  | nil =>
    intro s s' h
    simp only [run, Option.some.injEq] at h
    subst h
    simp
  | cons e es ih =>
    intro s s' h
    simp only [run] at h
    cases hs : step s e with
    | none => simp [hs] at h
    | some s1 =>
      simp only [hs] at h
      rw [ih s1 s' h, step_contents s s1 e hs]
      simp

/-- C3: for every sequence of steps that can be taken from the empty
buffer, the buffers handed to the bulk writer, concatenated in flush order,
followed by the queue that is left, are exactly the enqueued strings in
enqueue order. -/
theorem flushed_then_queue_eq_enqueued (evs : List Event) (s : BufferState)
    (h : run BufferState.init evs = some s) :
    s.written.flatten ++ s.queue = evs.flatMap Event.enqueued := by
  have := run_contents evs BufferState.init s h
  simpa [BufferState.contents, BufferState.init] using this

theorem flushed_then_queue_eq_enqueued_witness :
    (BufferState.mk ["a3", "b3"] false 1 0 [["a1", "b1", "a2", "b2"]]).written.flatten
        ++ (BufferState.mk ["a3", "b3"] false 1 0 [["a1", "b1", "a2", "b2"]]).queue
      = [Event.enqueue "a1" "b1", Event.timerFire, Event.enqueue "a2" "b2", Event.timerFlush,
          Event.enqueue "a3" "b3"].flatMap Event.enqueued :=
  flushed_then_queue_eq_enqueued
    [.enqueue "a1" "b1", .timerFire, .enqueue "a2" "b2", .timerFlush, .enqueue "a3" "b3"]
    ⟨["a3", "b3"], false, 1, 0, [["a1", "b1", "a2", "b2"]]⟩ (by decide)

theorem init_inv : BufferState.init.Inv := by
  simp [BufferState.Inv, BufferState.init]

theorem step_inv (s s' : BufferState) (e : Event) (hinv : s.Inv) (h : step s e = some s') :
    s'.Inv := by
  obtain ⟨h1, h2, h3, h4⟩ := hinv
  cases e with
  | enqueue action body =>
    simp only [step] at h
    split at h
    · exact absurd h (by simp)
    · split at h
      · simp only [Option.some.injEq] at h; subst h
        exact ⟨h1, by simp, by simp, h4⟩
      · rename_i hb
        simp only [Option.some.injEq] at h; subst h
        have hq : s.queue = [] := by
          have hlen : (s.queue ++ [action, body]).length = 2 := by
            unfold branchOf at hb
            split at hb
            · exact absurd hb (by simp)
            · split at hb
              · assumption
              · exact absurd hb (by simp)
          simp only [List.length_append, List.length_cons, List.length_nil] at hlen
          exact List.length_eq_zero.mp (by omega)
        have h0 : s.waiting + s.expired = 0 := by
          rcases Nat.lt_or_ge (s.waiting + s.expired) 1 with hlt | hge
          · omega
          · have h5 := h2 (by omega)
            rw [hq] at h5
            exact absurd h5 (by simp)
        refine ⟨?_, by simp, by simp, h4⟩
        show s.waiting + 1 + s.expired ≤ 1
        omega
      · simp only [Option.some.injEq] at h; subst h
        exact ⟨h1, by simp, by simp, h4⟩
  | cancel =>
    simp only [step] at h
    split at h
    · rename_i hc
      simp only [Option.some.injEq] at h; subst h
      refine ⟨?_, ?_, by simp, ?_⟩
      · show s.waiting - 1 + s.expired ≤ 1
        omega
      · show s.waiting - 1 + s.expired = 1 → _
        intro h5
        omega
      · intro buf hbuf
        simp only [List.mem_append, List.mem_singleton] at hbuf
        rcases hbuf with hbuf | rfl
        · exact h4 buf hbuf
        · exact h3 hc.1
    · exact absurd h (by simp)
  | timerFire =>
    simp only [step] at h
    split at h
    · rename_i hc
      simp only [Option.some.injEq] at h; subst h
      refine ⟨?_, ?_, h3, h4⟩
      · show s.waiting - 1 + (s.expired + 1) ≤ 1
        omega
      · show s.waiting - 1 + (s.expired + 1) = 1 → _
        intro _
        exact h2 (by omega)
    · exact absurd h (by simp)
  | timerFlush =>
    simp only [step] at h
    split at h
    · rename_i hc
      simp only [Option.some.injEq] at h; subst h
      refine ⟨?_, ?_, ?_, ?_⟩
      · show s.waiting + (s.expired - 1) ≤ 1
        omega
      · show s.waiting + (s.expired - 1) = 1 → _
        intro h5
        omega
      · intro h5
        exact absurd h5 (by simpa using hc.2)
      · intro buf hbuf
        simp only [List.mem_append, List.mem_singleton] at hbuf
        rcases hbuf with hbuf | rfl
        · exact h4 buf hbuf
        · exact h2 (by omega)
    · exact absurd h (by simp)

theorem run_inv (evs : List Event) :
    ∀ s s' : BufferState, s.Inv → run s evs = some s' → s'.Inv := by
  induction evs with
  | nil =>
    intro s s' hinv h
    simp only [run, Option.some.injEq] at h
    subst h
    exact hinv
  | cons e es ih =>
    intro s s' hinv h
    simp only [run] at h
    cases hs : step s e with
    | none => simp [hs] at h
    | some s1 =>
      simp only [hs] at h
      exact ih s1 s' (step_inv s s1 e hinv hs) h

set_option maxRecDepth 100000 in
/-- C2, at 49 queued pairs: the enqueue of the 50th pair takes the last
branch, not the size branch: the queue then holds `bulkSize` pairs, nothing
is handed to the bulk writer and no call is sending; 50 enqueues in a row
from the empty buffer leave 100 strings queued and nothing written. The size
branch is taken by the 51st pair, `len(queue) > bulkSize*2`. -/
theorem enqueue_fiftieth_pair_no_flush :
    (List.replicate 49 ["a", "b"]).flatten.length = 2 * (bulkSize - 1)
    ∧ branchOf ((List.replicate 49 ["a", "b"]).flatten ++ ["a", "b"]).length = Branch.noFlush
    ∧ step ⟨(List.replicate 49 ["a", "b"]).flatten, false, 1, 0, []⟩ (.enqueue "a" "b")
        = some ⟨(List.replicate 50 ["a", "b"]).flatten, false, 1, 0, []⟩
    ∧ run BufferState.init (List.replicate 50 (.enqueue "a" "b"))
        = some ⟨(List.replicate 50 ["a", "b"]).flatten, false, 1, 0, []⟩
    ∧ branchOf ((List.replicate 50 ["a", "b"]).flatten ++ ["a", "b"]).length
        = Branch.sizeFlush := by
  decide

/-- C6: in every state reached from the empty buffer, (1) every buffer
handed to the bulk writer so far is non-empty; (2) when a call on the
timer-elapse path re-acquires the lock, the buffer it detaches and hands to
the bulk writer is the whole queue, which holds at least one pair, and the
queue is left empty; (3) when the queue is empty no call is in the `select`
or past it, so no timer can fire and the timer path writes nothing. -/
theorem timer_never_flushes_empty (evs : List Event) (s : BufferState)
    (h : run BufferState.init evs = some s) :
    (∀ buf ∈ s.written, buf ≠ [])
    ∧ (∀ s', step s .timerFlush = some s' →
        s.queue ≠ [] ∧ 2 ≤ s.queue.length
        ∧ s'.written = s.written ++ [s.queue] ∧ s'.queue = [])
    ∧ (s.queue = [] → step s .timerFire = none ∧ step s .timerFlush = none) := by
  have hinv := run_inv evs BufferState.init s init_inv h
  obtain ⟨h1, h2, _, h4⟩ := hinv
  refine ⟨?_, ?_, ?_⟩
  · intro buf hbuf hnil
    have := h4 buf hbuf
    rw [hnil] at this
    exact absurd this (by simp)
  · intro s' hs
    simp only [step] at hs
    split at hs
    · rename_i hc
      simp only [Option.some.injEq] at hs
      subst hs
      have hlen : 2 ≤ s.queue.length := h2 (by omega)
      refine ⟨?_, hlen, rfl, rfl⟩
      intro hnil
      rw [hnil] at hlen
      exact absurd hlen (by simp)
    · exact absurd hs (by simp)
  · intro hq
    have h0 : s.waiting + s.expired = 0 := by
      rcases Nat.lt_or_ge (s.waiting + s.expired) 1 with hlt | hge
      · omega
      · have h5 := h2 (by omega)
        rw [hq] at h5
        exact absurd h5 (by simp)
    have hw : ¬ s.waiting > 0 := by omega
    have he : ¬ s.expired > 0 := by omega
    simp [step, hw, he]

theorem timer_never_flushes_empty_witness :
    ((∀ buf ∈ (BufferState.mk ["a1", "b1", "a2", "b2"] false 0 1 []).written, buf ≠ [])
      ∧ (∀ s', step (BufferState.mk ["a1", "b1", "a2", "b2"] false 0 1 []) .timerFlush = some s' →
          (BufferState.mk ["a1", "b1", "a2", "b2"] false 0 1 []).queue ≠ []
          ∧ 2 ≤ (BufferState.mk ["a1", "b1", "a2", "b2"] false 0 1 []).queue.length
          ∧ s'.written = (BufferState.mk ["a1", "b1", "a2", "b2"] false 0 1 []).written
              ++ [(BufferState.mk ["a1", "b1", "a2", "b2"] false 0 1 []).queue]
          ∧ s'.queue = [])
      ∧ ((BufferState.mk ["a1", "b1", "a2", "b2"] false 0 1 []).queue = [] →
          step (BufferState.mk ["a1", "b1", "a2", "b2"] false 0 1 []) .timerFire = none
          ∧ step (BufferState.mk ["a1", "b1", "a2", "b2"] false 0 1 []) .timerFlush = none))
    ∧ ((∀ buf ∈ (BufferState.mk [] false 0 0 [["a1", "b1", "a2", "b2"]]).written, buf ≠ [])
      ∧ (∀ s', step (BufferState.mk [] false 0 0 [["a1", "b1", "a2", "b2"]]) .timerFlush
            = some s' →
          (BufferState.mk [] false 0 0 [["a1", "b1", "a2", "b2"]]).queue ≠ []
          ∧ 2 ≤ (BufferState.mk [] false 0 0 [["a1", "b1", "a2", "b2"]]).queue.length
          ∧ s'.written = (BufferState.mk [] false 0 0 [["a1", "b1", "a2", "b2"]]).written
              ++ [(BufferState.mk [] false 0 0 [["a1", "b1", "a2", "b2"]]).queue]
          ∧ s'.queue = [])
      ∧ ((BufferState.mk [] false 0 0 [["a1", "b1", "a2", "b2"]]).queue = [] →
          step (BufferState.mk [] false 0 0 [["a1", "b1", "a2", "b2"]]) .timerFire = none
          ∧ step (BufferState.mk [] false 0 0 [["a1", "b1", "a2", "b2"]]) .timerFlush = none)) :=
  ⟨timer_never_flushes_empty
      [.enqueue "a1" "b1", .timerFire, .enqueue "a2" "b2"]
      ⟨["a1", "b1", "a2", "b2"], false, 0, 1, []⟩ (by decide),
    timer_never_flushes_empty
      [.enqueue "a1" "b1", .timerFire, .enqueue "a2" "b2", .timerFlush]
      ⟨[], false, 0, 0, [["a1", "b1", "a2", "b2"]]⟩ (by decide)⟩

set_option maxRecDepth 100000 in
/-- C8, a reachable state in which every call in flight is blocked: one
call enqueues and waits, its timer fires, and before it re-acquires the lock
fifty more pairs are enqueued. The 51st pair takes the size branch and sends
on `timerCancel` while holding `queueLock`; no call is left in the `select`
to receive, the expired call waits for the lock, and no step can be taken. -/
theorem deadlock_reachable :
    run BufferState.init
        (.enqueue "a" "b" :: .timerFire :: List.replicate 50 (.enqueue "a" "b"))
      = some ⟨(List.replicate 51 ["a", "b"]).flatten, true, 0, 1, []⟩
    ∧ ∀ e : Event, step ⟨(List.replicate 51 ["a", "b"]).flatten, true, 0, 1, []⟩ e = none := by
  refine ⟨by decide, ?_⟩
  intro e
  cases e <;> rfl

theorem insertToElasticsearch_from_empty (w : List (List String)) (action body : String) :
    insertToElasticsearch ⟨[], false, 0, 0, w⟩ action body
      = some ⟨[], false, 0, 0, w ++ [[action, body]]⟩ := by
  rfl

theorem ingest_from_empty (docs : List (String × String)) :
    ∀ w : List (List String),
      ingest ⟨[], false, 0, 0, w⟩ docs
        = some (⟨[], false, 0, 0, w ++ docs.map (fun d => [d.1, d.2])⟩,
            List.replicate docs.length Branch.timerWait) := by
  induction docs with
  | nil => intro w; simp [ingest]
  | cons d ds ih =>
    intro w
    simp only [ingest, insertToElasticsearch_from_empty, ih, List.map_cons, List.length_cons,
      List.replicate_succ, List.append_assoc, List.singleton_append]
    rfl

/-- C9: with calls made one after the other, a call that starts with the
empty queue and no call in flight takes the `len(queue) == 2` branch, waits
for its timer and flushes exactly its own pair, leaving the queue empty; any
sequence of such calls from the initial state returns, every call takes
that branch (never the size branch), and the bulk writer receives one
buffer of exactly one pair per call, in order. -/
theorem sequential_calls_flush_one_pair (docs : List (String × String))
    (w : List (List String)) (action body : String) :
    branchOf (([] : List String).length + 2) = Branch.timerWait
    ∧ insertToElasticsearch ⟨[], false, 0, 0, w⟩ action body
        = run ⟨[], false, 0, 0, w⟩ [.enqueue action body, .timerFire, .timerFlush]
    ∧ insertToElasticsearch ⟨[], false, 0, 0, w⟩ action body
        = some ⟨[], false, 0, 0, w ++ [[action, body]]⟩
    ∧ ingest BufferState.init docs
        = some (⟨[], false, 0, 0, docs.map (fun d => [d.1, d.2])⟩,
            List.replicate docs.length Branch.timerWait) := by
  refine ⟨rfl, rfl, rfl, ?_⟩
  simpa [BufferState.init] using ingest_from_empty docs []

/-! ## Pagination: claims -/

theorem atoiDigits_eq_some (cs : List Char) :
    ∀ n m : Nat, atoiDigits cs n = some m ↔
      (∀ c ∈ cs, '0' ≤ c ∧ c ≤ '9') ∧ m = cs.foldl (fun n c => n * 10 + digitValue c) n := by
  induction cs with
  | nil =>
    intro n m
    simp only [atoiDigits, Option.some.injEq, List.foldl_nil, List.not_mem_nil, false_implies,
      implies_true, true_and]
    exact eq_comm
  | cons c cs ih =>
    intro n m
    by_cases hc : '0' ≤ c ∧ c ≤ '9'
    · simp only [atoiDigits, hc, and_self, if_true, ih, List.foldl_cons, List.mem_cons,
        forall_eq_or_imp, true_and]
    · simp only [atoiDigits, hc, if_false, List.mem_cons, forall_eq_or_imp, false_and]
      simp

theorem atoiDigits_zero_eq_some (cs : List Char) (m : Nat) :
    atoiDigits cs 0 = some m ↔ (∀ c ∈ cs, '0' ≤ c ∧ c ≤ '9') ∧ m = decimalValue cs :=
  atoiDigits_eq_some cs 0 m

/-- `Atoi` accepts exactly the well-formed decimal integers that fit a
64-bit `int`, and returns their value. -/
theorem Atoi_eq_some_iff (s : String) (k : Int) : Atoi s = some k ↔ IsInt64Text s k := by
  unfold Atoi IsInt64Text IsDecimal
  cases hs : s.data with
  | nil =>
    constructor
    · intro h
      exact absurd h (by simp)
    · rintro ⟨digits, ⟨hne, _⟩, (⟨h | h, _⟩ | ⟨h, _⟩)⟩
      · exact absurd h.symm hne
      · exact absurd h (by simp)
      · exact absurd h (by simp)
  | cons c cs =>
    by_cases hminus : c = '-'
    · subst hminus
      simp only [true_or, if_true]
      constructor
      · intro h
        split at h
        · exact absurd h (by simp)
        · rename_i hne
          cases hd : atoiDigits cs 0 with
          | none => simp [hd] at h
          | some un =>
            simp only [hd] at h
            obtain ⟨hall, hun⟩ := (atoiDigits_zero_eq_some cs un).mp hd
            split at h
            · exact absurd h (by simp)
            · rename_i hle
              simp only [Option.some.injEq] at h
              refine ⟨cs, ⟨hne, hall⟩, Or.inr ⟨rfl, ?_, ?_⟩⟩
              · rw [← hun]; exact h.symm
              · rw [← hun]; omega
      · rintro ⟨digits, ⟨hne, hall⟩, (⟨h | h, _⟩ | ⟨h, hk, hle⟩)⟩
        · have h1 := hall '-' (by rw [← h]; simp)
          exact absurd h1 (by decide)
        · exact absurd (List.cons.inj h).1 (by decide)
        · have hcs : cs = digits := (List.cons.inj h).2
          subst hcs
          have hd : atoiDigits cs 0 = some (decimalValue cs) :=
            (atoiDigits_zero_eq_some cs _).mpr ⟨hall, rfl⟩
          have hle' : ¬ decimalValue cs > 2 ^ 63 := by omega
          simp [hne, hd, hle', hk]
          omega
    · by_cases hplus : c = '+'
      · subst hplus
        simp only [or_true, if_true, hminus, if_false]
        constructor
        · intro h
          split at h
          · exact absurd h (by simp)
          · rename_i hne
            cases hd : atoiDigits cs 0 with
            | none => simp [hd] at h
            | some un =>
              simp only [hd] at h
              obtain ⟨hall, hun⟩ := (atoiDigits_zero_eq_some cs un).mp hd
              split at h
              · exact absurd h (by simp)
              · rename_i hlt
                simp only [Option.some.injEq] at h
                refine ⟨cs, ⟨hne, hall⟩, Or.inl ⟨Or.inr rfl, ?_, ?_⟩⟩
                · rw [← hun]; exact h.symm
                · rw [← hun]; omega
        · rintro ⟨digits, ⟨hne, hall⟩, (⟨h | h, hk, hlt⟩ | ⟨h, _⟩)⟩
          · have h1 := hall '+' (by rw [← h]; simp)
            exact absurd h1 (by decide)
          · have hcs : cs = digits := (List.cons.inj h).2
            subst hcs
            have hd : atoiDigits cs 0 = some (decimalValue cs) :=
              (atoiDigits_zero_eq_some cs _).mpr ⟨hall, rfl⟩
            have hlt' : ¬ decimalValue cs ≥ 2 ^ 63 := by omega
            simp [hne, hd, hlt', hk]
            omega
          · exact absurd (List.cons.inj h).1 (by decide)
      · simp only [hminus, hplus, or_self, if_false]
        constructor
        · intro h
          split at h
          · exact absurd h (by simp)
          · rename_i hne
            cases hd : atoiDigits (c :: cs) 0 with
            | none => simp [hd] at h
            | some un =>
              simp only [hd] at h
              obtain ⟨hall, hun⟩ := (atoiDigits_zero_eq_some (c :: cs) un).mp hd
              split at h
              · exact absurd h (by simp)
              · rename_i hlt
                simp only [Option.some.injEq] at h
                refine ⟨c :: cs, ⟨hne, hall⟩, Or.inl ⟨Or.inl rfl, ?_, ?_⟩⟩
                · rw [← hun]; exact h.symm
                · rw [← hun]; omega
        · rintro ⟨digits, ⟨hne, hall⟩, (⟨h | h, hk, hlt⟩ | ⟨h, _⟩)⟩
          · subst h
            have hd : atoiDigits (c :: cs) 0 = some (decimalValue (c :: cs)) :=
              (atoiDigits_zero_eq_some (c :: cs) _).mpr ⟨hall, rfl⟩
            have hlt' : ¬ decimalValue (c :: cs) ≥ 2 ^ 63 := by omega
            simp [hd, hlt', hk]
            omega
          · exact absurd (List.cons.inj h).1 hplus
          · exact absurd (List.cons.inj h).1 hminus

theorem wrapInt64_of_inRange (x : Int) (h0 : -2 ^ 63 ≤ x) (h1 : x < 2 ^ 63) :
    wrapInt64 x = x := by
  unfold wrapInt64
  omega

theorem IsInt64Text_range (s : String) (k : Int) (h : IsInt64Text s k) :
    -2 ^ 63 ≤ k ∧ k < 2 ^ 63 := by
  obtain ⟨digits, _, (⟨_, hk, hlt⟩ | ⟨_, hk, hle⟩)⟩ := h
  · subst hk
    constructor <;> omega
  · subst hk
    constructor <;> omega

/-- C7, the claim as stated, at `page=-1` and at a large page: `Atoi`
accepts `-1`, which is not a non-negative integer, and the offset is `-50`:
negative, not zero, and no natural multiple of the page size; for the page
`184467440737095517` the product wraps to a negative offset. -/
theorem fromOffset_negative :
    Atoi "-1" = some (-1)
    ∧ fromOffset "-1" = -50
    ∧ fromOffset "-1" < 0
    ∧ fromOffset "-1" ≠ 0
    ∧ (¬ ∃ n : Nat, fromOffset "-1" = (n : Int) * pageSize)
    ∧ fromOffset "184467440737095517" = -9223372036854775766 := by
  refine ⟨by decide, by decide, by decide, by decide, ?_, by decide⟩
  rintro ⟨n, hn⟩
  have h : fromOffset "-1" = -50 := by decide
  rw [h] at hn
  simp only [pageSize] at hn
  omega

/-- C7, amended: for every `page` text, (1) when it is a well-formed decimal
integer of value `k` within the 64-bit range, with or without sign, the
offset is `k * pageSize` wrapped to 64 bits; (2) when it is no such text the
offset is 0; (3) when it is such a text of a value `n` from 0 to
`184467440737095516` the offset is `n * pageSize`, not negative. -/
theorem fromOffset_spec (s : String) :
    (∀ k : Int, IsInt64Text s k →
      -2 ^ 63 ≤ k ∧ k < 2 ^ 63 ∧ fromOffset s = wrapInt64 (k * pageSize))
    ∧ ((¬ ∃ k : Int, IsInt64Text s k) → fromOffset s = 0)
    ∧ (∀ n : Nat, IsInt64Text s (n : Int) → n ≤ 184467440737095516 →
      fromOffset s = (n : Int) * pageSize ∧ 0 ≤ fromOffset s) := by
  have hpage : ∀ k : Int, IsInt64Text s k → fromOffset s = wrapInt64 (k * pageSize) := by
    intro k hk
    have := (Atoi_eq_some_iff s k).mpr hk
    simp [fromOffset, pageOf, this]
  refine ⟨?_, ?_, ?_⟩
  · intro k hk
    exact ⟨(IsInt64Text_range s k hk).1, (IsInt64Text_range s k hk).2, hpage k hk⟩
  · intro hno
    cases ha : Atoi s with
    | none => simp [fromOffset, pageOf, ha, wrapInt64]
    | some k => exact absurd ⟨k, (Atoi_eq_some_iff s k).mp ha⟩ hno
  · intro n hn hle
    have h0 : -2 ^ 63 ≤ (n : Int) * pageSize := by
      simp only [pageSize]; omega
    have h1 : (n : Int) * pageSize < 2 ^ 63 := by
      simp only [pageSize]; omega
    rw [hpage n hn, wrapInt64_of_inRange _ h0 h1]
    refine ⟨rfl, ?_⟩
    simp only [pageSize]; omega

theorem fromOffset_spec_witness :
    fromOffset "7" = ((7 : Nat) : Int) * pageSize ∧ 0 ≤ fromOffset "7" :=
  (fromOffset_spec "7").2.2 7 ((Atoi_eq_some_iff "7" 7).mp (by decide)) (by decide)

end BgpLogger
